import Mathlib

/-!
# Verification of the multisegment well model (opm-simulators)

This file is a shallow embedding, over exact rationals, of the parts of
`opm/autodiff/MultisegmentWell_impl.hpp` needed to settle the claims about
fraction renormalization, Schur-complement elimination, perforation rate
computation, residual assembly, convergence reporting, primary-variable
damping, the bounded inner iteration, and surface volume fractions.

Machine doubles are modelled as rationals (exact arithmetic); the convergence
check, which inspects NaN/inf classifications of doubles, uses an explicit
floating-value type with `nan` and signed infinities.

Throughout, the three-phase black-oil configuration is used: water, oil and
gas all active, with phase positions water = 0, oil = 1, gas = 2, matching
the `PhaseUsage` layout assumed by the source (`assert(active()[Oil])`).
-/

/-! ## Fraction processing (`processFractions`, lines 1585-1651)

`processFractions` reads `primary_variables_[seg][WFrac]` and
`primary_variables_[seg][GFrac]`, forms the oil fraction as one minus the
other two, applies three sequential overshoot corrections (water, gas, oil:
clip a negative fraction to zero and divide the other two by one minus the
clipped value), and writes the water and gas fractions back. -/

/-- The per-segment fraction triple manipulated by `processFractions`
(`fractions[water_pos]`, `fractions[oil_pos]`, `fractions[gas_pos]`). -/
structure Fractions where
  water : ℚ
  oil : ℚ
  gas : ℚ
  deriving DecidableEq, Repr

/-- Lines 1592-1608: `fractions[oil_pos] = 1.0`, then subtract the water and
gas primary variables from the oil fraction. -/
def initFractions (wfrac gfrac : ℚ) : Fractions :=
  { water := wfrac, oil := 1 - wfrac - gfrac, gas := gfrac }

/-- Lines 1612-1621: water overshoot correction. -/
def clipWater (f : Fractions) : Fractions :=
  if f.water < 0 then
    { water := 0, oil := f.oil / (1 - f.water), gas := f.gas / (1 - f.water) }
  else f

/-- Lines 1623-1632: gas overshoot correction. -/
def clipGas (f : Fractions) : Fractions :=
  if f.gas < 0 then
    { water := f.water / (1 - f.gas), oil := f.oil / (1 - f.gas), gas := 0 }
  else f

/-- Lines 1634-1642: oil overshoot correction. -/
def clipOil (f : Fractions) : Fractions :=
  if f.oil < 0 then
    { water := f.water / (1 - f.oil), oil := 0, gas := f.gas / (1 - f.oil) }
  else f

/-- `processFractions` for one segment: the three corrections in source
order, returning the water and gas fractions written back to the primary
variables (lines 1644-1650). -/
def processFractions (wfrac gfrac : ℚ) : ℚ × ℚ :=
  let f := clipOil (clipGas (clipWater (initFractions wfrac gfrac)))
  (f.water, f.gas)

/-- Sum of the three fractions. -/
def sumF (f : Fractions) : ℚ := f.water + f.oil + f.gas

theorem sumF_initFractions (w g : ℚ) : sumF (initFractions w g) = 1 := by
  simp [sumF, initFractions]; ring

theorem sumF_clipWater (f : Fractions) (h : sumF f = 1) :
    sumF (clipWater f) = 1 := by
  unfold clipWater
  split
  · rename_i hw
    have hpos : (0 : ℚ) < 1 - f.water := by linarith
    have hsum : f.oil + f.gas = 1 - f.water := by
      unfold sumF at h; linarith
    show 0 + f.oil / (1 - f.water) + f.gas / (1 - f.water) = 1
    rw [zero_add, div_add_div_same, hsum, div_self (ne_of_gt hpos)]
  · exact h

theorem sumF_clipGas (f : Fractions) (h : sumF f = 1) :
    sumF (clipGas f) = 1 := by
  unfold clipGas
  split
  · rename_i hg
    have hpos : (0 : ℚ) < 1 - f.gas := by linarith
    have hsum : f.water + f.oil = 1 - f.gas := by
      unfold sumF at h; linarith
    show f.water / (1 - f.gas) + f.oil / (1 - f.gas) + 0 = 1
    rw [add_zero, div_add_div_same, hsum, div_self (ne_of_gt hpos)]
  · exact h

theorem sumF_clipOil (f : Fractions) (h : sumF f = 1) :
    sumF (clipOil f) = 1 := by
  unfold clipOil
  split
  · rename_i ho
    have hpos : (0 : ℚ) < 1 - f.oil := by linarith
    have hsum : f.water + f.gas = 1 - f.oil := by
      unfold sumF at h; linarith
    show f.water / (1 - f.oil) + 0 + f.gas / (1 - f.oil) = 1
    rw [add_zero, div_add_div_same, hsum, div_self (ne_of_gt hpos)]
  · exact h

theorem clipWater_water_nonneg (f : Fractions) : 0 ≤ (clipWater f).water := by
  unfold clipWater
  split
  · simp
  · rename_i hw; simpa using le_of_not_lt hw

theorem clipGas_gas_nonneg (f : Fractions) : 0 ≤ (clipGas f).gas := by
  unfold clipGas
  split
  · simp
  · rename_i hg; simpa using le_of_not_lt hg

theorem clipGas_water_nonneg (f : Fractions) (h : 0 ≤ f.water) :
    0 ≤ (clipGas f).water := by
  unfold clipGas
  split
  · rename_i hg
    have hpos : (0 : ℚ) ≤ 1 - f.gas := by linarith
    exact div_nonneg h hpos
  · exact h

theorem clipOil_water_nonneg (f : Fractions) (h : 0 ≤ f.water) :
    0 ≤ (clipOil f).water := by
  unfold clipOil
  split
  · rename_i ho
    have hpos : (0 : ℚ) ≤ 1 - f.oil := by linarith
    exact div_nonneg h hpos
  · exact h

theorem clipOil_gas_nonneg (f : Fractions) (h : 0 ≤ f.gas) :
    0 ≤ (clipOil f).gas := by
  unfold clipOil
  split
  · rename_i ho
    have hpos : (0 : ℚ) ≤ 1 - f.oil := by linarith
    exact div_nonneg h hpos
  · exact h

theorem clipOil_oil_nonneg (f : Fractions) : 0 ≤ (clipOil f).oil := by
  unfold clipOil
  split
  · simp
  · rename_i ho; simpa using le_of_not_lt ho

/-- After `processFractions`, water and gas are nonnegative and sum to at
most one (so the implied oil fraction is also in range). -/
theorem processFractions_bounds (wfrac gfrac : ℚ) :
    0 ≤ (processFractions wfrac gfrac).1 ∧
    0 ≤ (processFractions wfrac gfrac).2 ∧
    (processFractions wfrac gfrac).1 + (processFractions wfrac gfrac).2 ≤ 1 := by
  unfold processFractions
  set f0 := initFractions wfrac gfrac with hf0
  set f1 := clipWater f0 with hf1
  set f2 := clipGas f1 with hf2
  set f3 := clipOil f2 with hf3
  have hs0 : sumF f0 = 1 := sumF_initFractions wfrac gfrac
  have hs1 : sumF f1 = 1 := sumF_clipWater f0 hs0
  have hs2 : sumF f2 = 1 := sumF_clipGas f1 hs1
  have hs3 : sumF f3 = 1 := sumF_clipOil f2 hs2
  have hw1 : 0 ≤ f1.water := clipWater_water_nonneg f0
  have hw2 : 0 ≤ f2.water := clipGas_water_nonneg f1 hw1
  have hw3 : 0 ≤ f3.water := clipOil_water_nonneg f2 hw2
  have hg2 : 0 ≤ f2.gas := clipGas_gas_nonneg f1
  have hg3 : 0 ≤ f3.gas := clipOil_gas_nonneg f2 hg2
  have ho3 : 0 ≤ f3.oil := clipOil_oil_nonneg f2
  refine ⟨hw3, hg3, ?_⟩
  unfold sumF at hs3
  linarith

/-! ## Primary-variable update damping (`updateWellState`, lines 729-784)

For each segment, the water and gas fraction updates and the pressure update
are sign-split and clipped: `dx_limited = sign * min(|dwells|, cap)`, with
cap `relaxation_factor * dFLimit` for fractions and
`relaxation_factor * max_pressure_change` for the segment pressure; the new
value is `old - dx_limited`.  `processFractions` then renormalizes. -/

/-- The clipped Newton step `sign * std::min(std::abs(d), cap)` used in
`updateWellState` (lines 752-753, 758-759, 768-770). -/
def limitStep (d cap : ℚ) : ℚ :=
  let sign : ℚ := if 0 < d then 1 else -1
  sign * min |d| cap

/-- Relaxation factor (line 741): 0.2 when inner iterations are in use and
this is an inner iteration, 1.0 otherwise. -/
def relaxationFactor (useInner innerIteration : Bool) : ℚ :=
  if useInner && innerIteration then 1/5 else 1

/-- Fraction update for one primary variable (lines 752-754 and 758-760):
`old - sign * min(|d|, relaxation_factor * dFLimit)`. -/
def updateFraction (old d relax dFLimit : ℚ) : ℚ :=
  old - limitStep d (relax * dFLimit)

/-- Segment pressure update (lines 767-772):
`old - sign * min(|d|, relaxation_factor * max_pressure_change)`.  Note the
cap is the absolute parameter `max_pressure_change_ms_wells_`; the relative
limit `dbhp_max_rel_` (line 745) and `current_pressure` (line 769) are read
but never used. -/
def updatePressure (old d relax maxPressureChange : ℚ) : ℚ :=
  old - limitStep d (relax * maxPressureChange)

/-- Total-rate update (line 776), with no clipping. -/
def updateGTotal (old d relax : ℚ) : ℚ := old - relax * d

/-- The fraction part of `updateWellState` for one segment: clipped water and
gas updates followed by `processFractions` (lines 751-764). -/
def updateWellStateFractions (oldW oldG dW dG relax dFLimit : ℚ) : ℚ × ℚ :=
  processFractions (updateFraction oldW dW relax dFLimit)
                   (updateFraction oldG dG relax dFLimit)

theorem abs_limitStep (d cap : ℚ) (hcap : 0 ≤ cap) : |limitStep d cap| ≤ cap := by
  unfold limitStep
  have hmin : 0 ≤ min |d| cap := le_min (abs_nonneg d) hcap
  have habs : ∀ s : ℚ, s = 1 ∨ s = -1 → |s * min |d| cap| = min |d| cap := by
    intro s hs
    rcases hs with h | h <;> rw [h] <;> simp [abs_of_nonneg hmin]
  split
  · rw [habs 1 (Or.inl rfl)]; exact min_le_right _ _
  · rw [habs (-1) (Or.inr rfl)]; exact min_le_right _ _

/-- C1: after `updateWellState`'s clipped fraction updates followed by
`processFractions`, the water fraction, the gas fraction, and the implied oil
fraction (one minus the other two) all lie in `[0,1]` and the three sum to
one — for every segment state and every update vector, not only at
convergence. -/
theorem updateWellState_fraction_invariant
    (oldW oldG dW dG relax dFLimit : ℚ) :
    0 ≤ (updateWellStateFractions oldW oldG dW dG relax dFLimit).1 ∧
    (updateWellStateFractions oldW oldG dW dG relax dFLimit).1 ≤ 1 ∧
    0 ≤ (updateWellStateFractions oldW oldG dW dG relax dFLimit).2 ∧
    (updateWellStateFractions oldW oldG dW dG relax dFLimit).2 ≤ 1 ∧
    0 ≤ 1 - (updateWellStateFractions oldW oldG dW dG relax dFLimit).1
           - (updateWellStateFractions oldW oldG dW dG relax dFLimit).2 ∧
    1 - (updateWellStateFractions oldW oldG dW dG relax dFLimit).1
      - (updateWellStateFractions oldW oldG dW dG relax dFLimit).2 ≤ 1 ∧
    (updateWellStateFractions oldW oldG dW dG relax dFLimit).1 +
      (updateWellStateFractions oldW oldG dW dG relax dFLimit).2 +
      (1 - (updateWellStateFractions oldW oldG dW dG relax dFLimit).1
         - (updateWellStateFractions oldW oldG dW dG relax dFLimit).2) = 1 := by
  unfold updateWellStateFractions
  obtain ⟨h1, h2, h3⟩ := processFractions_bounds
    (updateFraction oldW dW relax dFLimit) (updateFraction oldG dG relax dFLimit)
  refine ⟨h1, by linarith, h2, by linarith, by linarith, by linarith, by ring⟩

/-- C7 counterexample: the pressure update is clipped by the absolute cap
`max_pressure_change_ms_wells_`, independent of the current segment pressure.
With cap 100 and a Newton step of 1000, a segment at pressure 1 moves by 100
(one hundred times its pressure, to -99), and a segment at pressure 1000000
moves by the same absolute 100 — no cap relative to the current pressure is
applied. -/
theorem updatePressure_ignores_current_pressure :
    updatePressure 1 1000 1 100 = -99 ∧
    updatePressure 1000000 1000 1 100 = 999900 := by
  constructor <;> norm_num [updatePressure, limitStep, abs]

/-- C7 (amended): each fraction update is clipped in magnitude to
`relaxation_factor * dFLimit`, and the segment pressure update is clipped in
magnitude to the absolute cap `relaxation_factor * max_pressure_change`
(not to a cap relative to the current segment pressure). -/
theorem updateWellState_step_limits
    (oldW oldG oldP dW dG dP relax dFLimit maxPressureChange : ℚ)
    (hdF : 0 ≤ relax * dFLimit) (hmpc : 0 ≤ relax * maxPressureChange) :
    |updateFraction oldW dW relax dFLimit - oldW| ≤ relax * dFLimit ∧
    |updateFraction oldG dG relax dFLimit - oldG| ≤ relax * dFLimit ∧
    |updatePressure oldP dP relax maxPressureChange - oldP|
      ≤ relax * maxPressureChange := by
  refine ⟨?_, ?_, ?_⟩
  · have := abs_limitStep dW (relax * dFLimit) hdF
    calc |updateFraction oldW dW relax dFLimit - oldW|
        = |limitStep dW (relax * dFLimit)| := by
          unfold updateFraction; rw [abs_sub_comm]; ring_nf
      _ ≤ relax * dFLimit := this
  · have := abs_limitStep dG (relax * dFLimit) hdF
    calc |updateFraction oldG dG relax dFLimit - oldG|
        = |limitStep dG (relax * dFLimit)| := by
          unfold updateFraction; rw [abs_sub_comm]; ring_nf
      _ ≤ relax * dFLimit := this
  · have := abs_limitStep dP (relax * maxPressureChange) hmpc
    calc |updatePressure oldP dP relax maxPressureChange - oldP|
        = |limitStep dP (relax * maxPressureChange)| := by
          unfold updatePressure; rw [abs_sub_comm]; ring_nf
      _ ≤ relax * maxPressureChange := this

/-- C7 witness: the amended step limits at a concrete input. -/
theorem updateWellState_step_limits_witness :
    0 ≤ (1 : ℚ) * (1/5) ∧ 0 ≤ (1 : ℚ) * 100 ∧
    (|updateFraction (1/2) 3 1 (1/5) - 1/2| ≤ (1 : ℚ) * (1/5) ∧
     |updateFraction (1/4) (-3) 1 (1/5) - 1/4| ≤ (1 : ℚ) * (1/5) ∧
     |updatePressure 50 1000 1 100 - 50| ≤ (1 : ℚ) * 100) :=
  ⟨by norm_num, by norm_num,
   updateWellState_step_limits (1/2) (1/4) 50 3 (-3) 1000 1 (1/5) 100
     (by norm_num) (by norm_num)⟩

/-! ## Surface volume fractions (lines 876-949)

`volumeFraction` returns the water or gas primary variable, or one minus
both for oil; `volumeFractionScaled` divides by `scalingFactor(comp)` when
that is positive; `surfaceVolumeFraction` divides the scaled fraction by the
sum of all scaled fractions. -/

/-- `volumeFraction(seg, comp)` (lines 876-909): component positions are
water = 0, oil = 1, gas = 2. -/
def volumeFraction (w g : ℚ) : Fin 3 → ℚ
  | 0 => w
  | 1 => 1 - w - g
  | 2 => g

/-- `volumeFractionScaled(seg, comp)` (lines 915-929): divide by the scaling
factor when it is positive, otherwise return the fraction unscaled. -/
def volumeFractionScaled (scale : Fin 3 → ℚ) (w g : ℚ) (i : Fin 3) : ℚ :=
  if 0 < scale i then volumeFraction w g i / scale i else volumeFraction w g i

/-- `surfaceVolumeFraction(seg, comp)` (lines 935-949). -/
def surfaceVolumeFraction (scale : Fin 3 → ℚ) (w g : ℚ) (i : Fin 3) : ℚ :=
  volumeFractionScaled scale w g i / ∑ j, volumeFractionScaled scale w g j

/-- C10: whenever the scaled volume fractions of a segment have nonzero sum,
the surface volume fractions over all components sum to exactly one. -/
theorem surfaceVolumeFraction_sum_one (scale : Fin 3 → ℚ) (w g : ℚ)
    (h : ∑ j, volumeFractionScaled scale w g j ≠ 0) :
    ∑ i, surfaceVolumeFraction scale w g i = 1 := by
  unfold surfaceVolumeFraction
  rw [← Finset.sum_div, div_self h]

/-- The scaling factors of `scalingFactor` (lines 1717-1744) outside
reservoir-rate control: 1 for water and oil, 0.01 for gas. -/
def stdScaling : Fin 3 → ℚ := fun i => if i = 2 then 1/100 else 1

/-- C10 witness: concrete segment with water fraction 1/4, gas fraction 1/4
under the standard scaling factors. -/
theorem surfaceVolumeFraction_sum_one_witness :
    (∑ j, volumeFractionScaled stdScaling (1/4) (1/4) j ≠ 0) ∧
    ∑ i, surfaceVolumeFraction stdScaling (1/4) (1/4) i = 1 := by
  have h : ∑ j, volumeFractionScaled stdScaling (1/4) (1/4) j ≠ 0 := by
    norm_num +decide [Fin.sum_univ_three, volumeFractionScaled, volumeFraction, stdScaling]
  exact ⟨h, surfaceVolumeFraction_sum_one stdScaling (1/4) (1/4) h⟩

/-! ## Schur-complement elimination (`apply`, lines 484-498)

`apply(x, Ax)` computes `Bx = duneB_ · x`, `invDBx = invDX(duneD_, Bx)`, and
then `duneC_.mmtv(invDBx, Ax)`, i.e. `Ax -= duneC_ᵀ · invDBx`.  The method is
`const`: the well matrices and residual are not modified.  Blocks are
flattened, so the block matrices become plain rational matrices. -/

/-- The well-local linear-algebra state: segment-indexed square matrix `D`,
coupling matrices `B` and `C` (well row, reservoir column), and the well
residual. -/
structure WellLinearSystem (ns nc : ℕ) where
  duneD : Matrix (Fin ns) (Fin ns) ℚ
  duneB : Matrix (Fin ns) (Fin nc) ℚ
  duneC : Matrix (Fin ns) (Fin nc) ℚ
  resWell : Fin ns → ℚ

/-- Modelled from the spec: `mswellhelpers::invDX` (defined in
`MSWellHelpers.hpp`, which is not among the provided sources) solves
`D·y = r` by dense inversion of `D`; here realized through Cramer's rule,
`y = det(D)⁻¹ • cramer D r`. -/
def invDX {ns : ℕ} (D : Matrix (Fin ns) (Fin ns) ℚ) (r : Fin ns → ℚ) :
    Fin ns → ℚ :=
  (D.det)⁻¹ • D.cramer r

/-- Dune's `mmtv(x, y)`: subtract the transposed-matrix-vector product,
`y - Aᵀ·x`. -/
def mmtv {m n : ℕ} (A : Matrix (Fin m) (Fin n) ℚ) (x : Fin m → ℚ)
    (y : Fin n → ℚ) : Fin n → ℚ :=
  y - A.transpose.mulVec x

/-- `MultisegmentWell::apply(x, Ax)` (lines 484-498). -/
def msApply {ns nc : ℕ} (W : WellLinearSystem ns nc) (x Ax : Fin nc → ℚ) :
    Fin nc → ℚ :=
  let Bx := W.duneB.mulVec x
  let invDBx := invDX W.duneD Bx
  mmtv W.duneC invDBx Ax

/-- The full caller-visible state of `apply`: the (const) well system plus
the reservoir vector `Ax` being updated. -/
structure ApplyState (ns nc : ℕ) where
  sys : WellLinearSystem ns nc
  Ax : Fin nc → ℚ

/-- `apply` as a transition on the full state: only `Ax` is rewritten. -/
def msApplyFull {ns nc : ℕ} (s : ApplyState ns nc) (x : Fin nc → ℚ) :
    ApplyState ns nc :=
  { s with Ax := msApply s.sys x s.Ax }

/-- `invDX` really solves the system when `D` is invertible. -/
theorem invDX_solves {ns : ℕ} (D : Matrix (Fin ns) (Fin ns) ℚ)
    (r : Fin ns → ℚ) (hdet : D.det ≠ 0) :
    D.mulVec (invDX D r) = r := by
  unfold invDX
  rw [Matrix.mulVec_smul, Matrix.mulVec_cramer, smul_smul,
    inv_mul_cancel₀ hdet, one_smul]

/-- C2: for every reservoir vector `x`, `apply(x, Ax)` replaces `Ax` by
`Ax - duneCᵀ·y` where `y` is the unique solution of `duneD·y = duneB·x`
(obtained by dense inversion of `duneD`), and leaves `duneD`, `duneB`,
`duneC` and the well residual unchanged. -/
theorem msApply_schur {ns nc : ℕ} (s : ApplyState ns nc) (x : Fin nc → ℚ)
    (hdet : s.sys.duneD.det ≠ 0) :
    s.sys.duneD.mulVec (invDX s.sys.duneD (s.sys.duneB.mulVec x))
        = s.sys.duneB.mulVec x ∧
    (msApplyFull s x).Ax
        = s.Ax - s.sys.duneC.transpose.mulVec
            (invDX s.sys.duneD (s.sys.duneB.mulVec x)) ∧
    (msApplyFull s x).sys = s.sys ∧
    ∀ z, s.sys.duneD.mulVec z = s.sys.duneB.mulVec x →
      z = invDX s.sys.duneD (s.sys.duneB.mulVec x) := by
  have hsolve := invDX_solves s.sys.duneD (s.sys.duneB.mulVec x) hdet
  refine ⟨hsolve, rfl, rfl, ?_⟩
  intro z hz
  have hunit : IsUnit s.sys.duneD.det := isUnit_iff_ne_zero.mpr hdet
  have hDinv : s.sys.duneD⁻¹ * s.sys.duneD = 1 :=
    Matrix.nonsing_inv_mul s.sys.duneD hunit
  have h1 : z = s.sys.duneD⁻¹.mulVec (s.sys.duneD.mulVec z) := by
    rw [Matrix.mulVec_mulVec, hDinv, Matrix.one_mulVec]
  have h2 : invDX s.sys.duneD (s.sys.duneB.mulVec x)
      = s.sys.duneD⁻¹.mulVec
          (s.sys.duneD.mulVec (invDX s.sys.duneD (s.sys.duneB.mulVec x))) := by
    rw [Matrix.mulVec_mulVec, hDinv, Matrix.one_mulVec]
  rw [h1, hz, h2, hsolve]

/-- Concrete one-segment, one-cell well system for the C2 witness. -/
def exWellSystem : WellLinearSystem 1 1 :=
  { duneD := Matrix.of fun _ _ => 2
    duneB := Matrix.of fun _ _ => 3
    duneC := Matrix.of fun _ _ => 5
    resWell := fun _ => 7 }

/-- C2 witness: the elimination theorem applied to the concrete system. -/
theorem msApply_schur_witness :
    exWellSystem.duneD.det ≠ 0 ∧
    (msApplyFull ⟨exWellSystem, fun _ => 10⟩ (fun _ => 1)).Ax
        = (fun _ => (10 : ℚ)) - exWellSystem.duneC.transpose.mulVec
            (invDX exWellSystem.duneD (exWellSystem.duneB.mulVec fun _ => 1)) := by
  have hdet : exWellSystem.duneD.det ≠ 0 := by
    simp [exWellSystem, Matrix.det_fin_one]
  exact ⟨hdet,
    (msApply_schur ⟨exWellSystem, fun _ => 10⟩ (fun _ => 1) hdet).2.1⟩

/-! ## Perforation rates (`computePerfRate`, lines 955-1087)

Values-only embedding of `computePerfRate` for the three-phase case (the
branch conditions in the source compare values of the dual numbers).  The
wellbore composition `cmix_s` is computed from `surfaceVolumeFraction`
(line 971); fallible control flow (`OPM_THROW`) becomes `Except.error`. -/

/-- `well_type_`. -/
inductive WellType where
  | injector
  | producer
  deriving DecidableEq, Repr

/-- The inputs read by `computePerfRate` for one perforation. -/
structure PerfRateInput where
  /-- scaling factors feeding `surfaceVolumeFraction` via `volumeFractionScaled` -/
  scale : Fin 3 → ℚ
  /-- segment primary variable `WFrac` -/
  wfrac : ℚ
  /-- segment primary variable `GFrac` -/
  gfrac : ℚ
  /-- `mob_perfcells` -/
  mob : Fin 3 → ℚ
  /-- `b_perfcells`, the inverse formation volume factors of the cell -/
  b : Fin 3 → ℚ
  /-- `fs.pressure(oilPhaseIdx)` -/
  pressureCell : ℚ
  /-- `fs.Rs()` -/
  rs : ℚ
  /-- `fs.Rv()` -/
  rv : ℚ
  /-- `well_index_[perf]` -/
  wellIndex : ℚ
  /-- `gravity_` -/
  gravity : ℚ
  /-- `segment_densities_[seg]` -/
  segmentDensity : ℚ
  /-- `perforation_segment_depth_diffs_[perf]` -/
  perfSegDepthDiff : ℚ
  /-- `cell_perforation_pressure_diffs_[perf]` -/
  cellPerfPressDiff : ℚ
  /-- the segment pressure argument -/
  segmentPressure : ℚ
  /-- `allow_cf` -/
  allowCf : Bool
  /-- `well_type_` -/
  wellType : WellType
  /-- `name()` -/
  wellName : String
  /-- the caller-initialized `cq_s` vector (zeroed at line 1892) -/
  cqInit : Fin 3 → ℚ

/-- `cmix_s[comp]` (lines 970-972): the wellbore-side surface composition. -/
def cmix (inp : PerfRateInput) (i : Fin 3) : ℚ :=
  surfaceVolumeFraction inp.scale inp.wfrac inp.gfrac i

/-- Lines 993-1000: `drawdown = (pressure_cell + cell_perf_press_diff) -
(segment_pressure + perf_seg_press_diff)` with the hydrostatic adjustment
`perf_seg_press_diff = gravity * segment_density * depth_diff`. -/
def drawdown (inp : PerfRateInput) : ℚ :=
  (inp.pressureCell + inp.cellPerfPressDiff) -
    (inp.segmentPressure + inp.gravity * inp.segmentDensity * inp.perfSegDepthDiff)

/-- Lines 1011-1024: component rates of a producing perforation, with the
dissolved-gas / vaporized-oil redistribution applied to the saved oil and
gas rates (positions: water 0, oil 1, gas 2). -/
def producingRates (inp : PerfRateInput) : Fin 3 → ℚ :=
  let cq0 : Fin 3 → ℚ := fun i => inp.b i * (-inp.wellIndex * (inp.mob i * drawdown inp))
  fun i =>
    if i = 2 then cq0 2 + inp.rs * cq0 1
    else if i = 1 then cq0 1 + inp.rv * cq0 2
    else cq0 0

/-- The error message of the `OPM_THROW(Opm::NumericalProblem, ...)` at
lines 1061-1063 (`d.value() == 0`), which names the well. -/
def zeroDMessage (inp : PerfRateInput) : String :=
  "Zero d value obtained for well " ++ inp.wellName ++ " during flux calcuation"

/-- Lines 1031-1085 after the crossflow check: total mobility, total
injection rate, volume ratio (with the `1 - rv*rs` denominator check), and
apportioning by the wellbore composition. -/
def injectingRates (inp : PerfRateInput) : Except String (Fin 3 → ℚ) :=
  let total_mob := inp.mob 0 + inp.mob 1 + inp.mob 2
  let cqt_i := -inp.wellIndex * (total_mob * drawdown inp)
  let volume_ratio_w := cmix inp 0 / inp.b 0
  let d := 1 - inp.rv * inp.rs
  if d = 0 then Except.error (zeroDMessage inp)
  else
    let tmp_oil := (cmix inp 1 - inp.rv * cmix inp 2) / d
    let tmp_gas := (cmix inp 2 - inp.rs * cmix inp 1) / d
    let volume_ratio := volume_ratio_w + tmp_oil / inp.b 1 + tmp_gas / inp.b 2
    let cqt_is := cqt_i / volume_ratio
    Except.ok fun i => cmix inp i * cqt_is

/-- The producing branch (lines 1005-1024), including the early return that
leaves the caller's `cq_s` untouched when crossflow is disallowed on an
injector. -/
def producingBranch (inp : PerfRateInput) : Except String (Fin 3 → ℚ) :=
  if inp.allowCf = false ∧ inp.wellType = WellType.injector then
    Except.ok inp.cqInit
  else
    Except.ok (producingRates inp)

/-- The injecting branch (lines 1025-1086), including the early return that
leaves the caller's `cq_s` untouched when crossflow is disallowed on a
producer. -/
def injectingBranch (inp : PerfRateInput) : Except String (Fin 3 → ℚ) :=
  if inp.allowCf = false ∧ inp.wellType = WellType.producer then
    Except.ok inp.cqInit
  else
    injectingRates inp

/-- `computePerfRate` (lines 955-1087): branch on the sign of the drawdown. -/
def computePerfRate (inp : PerfRateInput) : Except String (Fin 3 → ℚ) :=
  if 0 < drawdown inp then producingBranch inp else injectingBranch inp

/-- C3: `computePerfRate` classifies every perforation by the sign of
`drawdown = (cell pressure + cell-to-perforation adjustment) - (segment
pressure + perforation-to-segment hydrostatic adjustment)`: strictly
positive drawdown takes the producing branch, and nonpositive drawdown —
including exactly zero — takes the injecting branch. -/
theorem computePerfRate_classification (inp : PerfRateInput) :
    drawdown inp = (inp.pressureCell + inp.cellPerfPressDiff) -
      (inp.segmentPressure +
        inp.gravity * inp.segmentDensity * inp.perfSegDepthDiff) ∧
    (0 < drawdown inp → computePerfRate inp = producingBranch inp) ∧
    (drawdown inp ≤ 0 → computePerfRate inp = injectingBranch inp) := by
  refine ⟨rfl, fun h => ?_, fun h => ?_⟩
  · simp [computePerfRate, if_pos h]
  · simp [computePerfRate, if_neg (not_lt.mpr h)]

/-- Perforation input at the drawdown boundary: cell side and well side at
the same pressure, so the drawdown is exactly zero. -/
def boundaryPerfInput : PerfRateInput :=
  { scale := stdScaling
    wfrac := 1/4
    gfrac := 1/4
    mob := fun _ => 1
    b := fun _ => 1
    pressureCell := 10
    rs := 0
    rv := 0
    wellIndex := 1
    gravity := 0
    segmentDensity := 1
    perfSegDepthDiff := 0
    cellPerfPressDiff := 0
    segmentPressure := 10
    allowCf := true
    wellType := WellType.producer
    wellName := "PROD1"
    cqInit := fun _ => 0 }

/-- C3 witness: a perforation whose drawdown is exactly zero is handled by
the injecting branch. -/
theorem computePerfRate_classification_witness :
    drawdown boundaryPerfInput ≤ 0 ∧
    computePerfRate boundaryPerfInput = injectingBranch boundaryPerfInput := by
  have h : drawdown boundaryPerfInput ≤ 0 := by
    norm_num [drawdown, boundaryPerfInput]
  exact ⟨h, (computePerfRate_classification boundaryPerfInput).2.2 h⟩

/-- C4: when crossflow is disallowed and the flow direction opposes the well
type (producing perforation on an injector, or injecting perforation on a
producer), `computePerfRate` returns early with the caller-zeroed `cq_s`
untouched — every component rate is exactly zero and no error is raised. -/
theorem computePerfRate_crossflow_zero (inp : PerfRateInput)
    (hcq : inp.cqInit = fun _ => 0) (hcf : inp.allowCf = false) :
    (inp.wellType = WellType.injector → 0 < drawdown inp →
      computePerfRate inp = Except.ok fun _ => 0) ∧
    (inp.wellType = WellType.producer → drawdown inp ≤ 0 →
      computePerfRate inp = Except.ok fun _ => 0) := by
  constructor
  · intro hty hdd
    simp [computePerfRate, if_pos hdd, producingBranch, hcf, hty, hcq]
  · intro hty hdd
    simp [computePerfRate, if_neg (not_lt.mpr hdd), injectingBranch, hcf, hty, hcq]

/-- A producing perforation (positive drawdown) on an injector that
disallows crossflow. -/
def crossflowPerfInput : PerfRateInput :=
  { boundaryPerfInput with
    pressureCell := 20
    allowCf := false
    wellType := WellType.injector
    wellName := "INJE1" }

/-- C4 witness: the crossflow early return at a concrete producing
perforation of an injector. -/
theorem computePerfRate_crossflow_zero_witness :
    crossflowPerfInput.cqInit = (fun _ => 0) ∧
    crossflowPerfInput.allowCf = false ∧
    crossflowPerfInput.wellType = WellType.injector ∧
    0 < drawdown crossflowPerfInput ∧
    computePerfRate crossflowPerfInput = Except.ok fun _ => 0 := by
  have hdd : 0 < drawdown crossflowPerfInput := by
    norm_num [drawdown, crossflowPerfInput, boundaryPerfInput]
  exact ⟨rfl, rfl, rfl, hdd,
    (computePerfRate_crossflow_zero crossflowPerfInput rfl rfl).1 rfl hdd⟩

/-- C8: in the injecting branch (nonpositive drawdown, no crossflow early
return), with oil and gas both active, `computePerfRate` raises the fatal
numerical-problem error naming the well exactly when the denominator
`d = 1 - rv*rs` is zero; otherwise it succeeds and each component rate is
the wellbore-side surface composition times a common total. -/
theorem computePerfRate_zero_d (inp : PerfRateInput)
    (hdd : drawdown inp ≤ 0)
    (hnr : ¬(inp.allowCf = false ∧ inp.wellType = WellType.producer)) :
    (computePerfRate inp = Except.error (zeroDMessage inp) ↔
      1 - inp.rv * inp.rs = 0) ∧
    (1 - inp.rv * inp.rs ≠ 0 →
      ∃ t, computePerfRate inp = Except.ok fun i => cmix inp i * t) := by
  have hbranch : computePerfRate inp = injectingRates inp := by
    simp [computePerfRate, if_neg (not_lt.mpr hdd), injectingBranch, if_neg hnr]
  rw [hbranch]
  unfold injectingRates
  constructor
  · constructor
    · intro herr
      by_contra hd
      rw [if_neg hd] at herr
      exact Except.noConfusion herr
    · intro hd
      rw [if_pos hd]
  · intro hd
    rw [if_neg hd]
    exact ⟨_, rfl⟩

/-- An injecting perforation with `rv * rs = 1`, reaching the zero-`d`
error. -/
def zeroDPerfInput : PerfRateInput :=
  { boundaryPerfInput with
    segmentPressure := 30
    rs := 1
    rv := 1
    allowCf := true
    wellType := WellType.injector
    wellName := "INJE1" }

/-- C8 witness: the zero-denominator error is raised, with the well name in
the message, at a concrete injecting perforation with `rv*rs = 1`. -/
theorem computePerfRate_zero_d_witness :
    drawdown zeroDPerfInput ≤ 0 ∧
    ¬(zeroDPerfInput.allowCf = false ∧
      zeroDPerfInput.wellType = WellType.producer) ∧
    computePerfRate zeroDPerfInput = Except.error
      "Zero d value obtained for well INJE1 during flux calcuation" := by
  have hdd : drawdown zeroDPerfInput ≤ 0 := by
    norm_num [drawdown, zeroDPerfInput, boundaryPerfInput]
  have hnr : ¬(zeroDPerfInput.allowCf = false ∧
      zeroDPerfInput.wellType = WellType.producer) := by
    simp [zeroDPerfInput, boundaryPerfInput]
  have hmsg : zeroDMessage zeroDPerfInput =
      "Zero d value obtained for well INJE1 during flux calcuation" := rfl
  have herr := (computePerfRate_zero_d zeroDPerfInput hdd hnr).1.mpr
    (by norm_num [zeroDPerfInput, boundaryPerfInput])
  exact ⟨hdd, hnr, hmsg ▸ herr⟩

/-! ## Bounded inner iteration (`iterateWellEquations`, lines 1775-1816)

The loop `for (it = 0; it < max_iter_number; ++it)` assembles the well
equations, solves for a well update, checks convergence, breaks when
converged, and otherwise applies the damped update.  The body operations
are the rest of the well model; here they are abstract total functions over
an opaque well-local state, and the loop skeleton is embedded exactly. -/

/-- The operations invoked by one inner iteration:
`assembleWellEqWithoutIteration` followed by `invDX` (line 1793-1795),
`getWellConvergence` (line 1804), and `updateWellState` followed by
`initPrimaryVariablesEvaluation` (lines 1811-1813). -/
structure InnerIterationModel (α : Type) where
  assembleSolve : α → α
  convergedAfter : α → Bool
  applyUpdate : α → α

/-- `iterateWellEquations` with iteration budget `n =
param.max_inner_iter_ms_wells_`: returns the final state and the number of
loop-body executions. -/
def iterateWellEquations {α : Type} (M : InnerIterationModel α) :
    ℕ → α → α × ℕ
  | 0, s => (s, 0)
  | n + 1, s =>
    let s1 := M.assembleSolve s
    if M.convergedAfter s1 then (s1, 1)
    else
      let r := iterateWellEquations M n (M.applyUpdate s1)
      (r.1, r.2 + 1)

/-- C9: the inner loop executes at most the configured maximum number of
iterations; it terminates early only when the convergence report says
converged; and when the cap is exhausted without convergence it returns (a
total function — no error) with the latest updated state in effect. -/
theorem iterateWellEquations_bounded {α : Type} (M : InnerIterationModel α)
    (n : ℕ) (s : α) :
    (iterateWellEquations M n s).2 ≤ n ∧
    ((iterateWellEquations M n s).2 < n →
      M.convergedAfter (iterateWellEquations M n s).1 = true) ∧
    (M.convergedAfter (iterateWellEquations M n s).1 = false →
      (iterateWellEquations M n s).1
        = (fun t => M.applyUpdate (M.assembleSolve t))^[n] s) := by
  induction n generalizing s with
  | zero => exact ⟨le_refl 0, fun h => absurd h (lt_irrefl 0), fun _ => rfl⟩
  | succ m ih =>
    by_cases hc : M.convergedAfter (M.assembleSolve s) = true
    · have heq : iterateWellEquations M (m + 1) s = (M.assembleSolve s, 1) := by
        simp [iterateWellEquations, hc]
      refine ⟨?_, ?_, ?_⟩
      · rw [heq]; omega
      · intro _
        rw [heq]
        exact hc
      · intro hfalse
        rw [heq] at hfalse
        rw [hc] at hfalse
        exact absurd hfalse (by simp)
    · have hc2 : M.convergedAfter (M.assembleSolve s) = false :=
        Bool.eq_false_iff.mpr hc
      have heq : iterateWellEquations M (m + 1) s =
          ((iterateWellEquations M m (M.applyUpdate (M.assembleSolve s))).1,
           (iterateWellEquations M m (M.applyUpdate (M.assembleSolve s))).2 + 1) := by
        simp [iterateWellEquations, hc2]
      obtain ⟨ih1, ih2, ih3⟩ := ih (M.applyUpdate (M.assembleSolve s))
      refine ⟨?_, ?_, ?_⟩
      · rw [heq]; simpa using ih1
      · intro hlt
        rw [heq] at hlt ⊢
        exact ih2 (by simp at hlt; omega)
      · intro hfalse
        rw [heq] at hfalse ⊢
        rw [Function.iterate_succ_apply]
        exact ih3 hfalse

/-- A concrete never-converging instance for the C9 witness: the state is a
counter incremented by each assemble and each update. -/
def exIterModel : InnerIterationModel ℕ :=
  { assembleSolve := Nat.succ
    convergedAfter := fun _ => false
    applyUpdate := Nat.succ }

/-- C9 witness: on cap exhaustion (two iterations, never converged) the loop
runs exactly to the cap and returns the twice-updated state. -/
theorem iterateWellEquations_bounded_witness :
    (iterateWellEquations exIterModel 2 0).2 ≤ 2 ∧
    exIterModel.convergedAfter (iterateWellEquations exIterModel 2 0).1 = false ∧
    (iterateWellEquations exIterModel 2 0).1
      = (fun t => exIterModel.applyUpdate (exIterModel.assembleSolve t))^[2] 0 :=
  ⟨(iterateWellEquations_bounded exIterModel 2 0).1, rfl,
    (iterateWellEquations_bounded exIterModel 2 0).2.2 rfl⟩

/-! ## Conservation of the perforation exchange term
(`assembleWellEqWithoutIteration`, lines 1895-1927)

For each perforation and each component, the effective exchange term
`cq_s_effective = cq_s[comp] * well_efficiency_factor_` is subtracted from
`ebosResid[cell_idx][flowPhaseToEbosCompIdx(comp)]` (only when
`only_wells` is false) and from `resWell_[seg][comp]`. -/

/-- The residual stores touched by the perforation loop: the reservoir
residual (by cell index and ebos component) and the component part of the
well residual (by segment and component). -/
structure ResidState where
  ebosResid : ℕ → Fin 3 → ℚ
  resWell : ℕ → Fin 3 → ℚ

/-- The body of the component loop for one perforation (lines 1895-1908):
subtract `cq_s_effective` from the reservoir residual (unless `only_wells`)
and from the well residual.  `ebosComp` is the fixed component re-indexing
`flowPhaseToEbosCompIdx` (a bijection, defined outside this file's
sources). -/
def perfCompStep (only_wells : Bool) (ebosComp : Fin 3 ≃ Fin 3) (eff : ℚ)
    (cq_s : Fin 3 → ℚ) (cell seg : ℕ) (st : ResidState) (comp : Fin 3) :
    ResidState :=
  let cq_eff := cq_s comp * eff
  let st1 :=
    if only_wells then st
    else
      ResidState.mk
        (Function.update st.ebosResid cell
          (Function.update (st.ebosResid cell) (ebosComp comp)
            (st.ebosResid cell (ebosComp comp) - cq_eff)))
        st.resWell
  ResidState.mk st1.ebosResid
    (Function.update st1.resWell seg
      (Function.update (st1.resWell seg) comp
        (st1.resWell seg comp - cq_eff)))

/-- The component loop of one perforation (`for comp_idx`, line 1895). -/
def assemblePerfResiduals (only_wells : Bool) (ebosComp : Fin 3 ≃ Fin 3)
    (eff : ℚ) (cq_s : Fin 3 → ℚ) (cell seg : ℕ) (st : ResidState) :
    ResidState :=
  ([0, 1, 2] : List (Fin 3)).foldl
    (perfCompStep only_wells ebosComp eff cq_s cell seg) st

/-- C5: with `only_wells` false, for every component the assembly of one
perforation subtracts the identical effective exchange term
`cq_s[comp] * efficiency` from the reservoir cell's residual entry and from
the owning segment's well residual entry. -/
theorem assemblePerf_conservation (ebosComp : Fin 3 ≃ Fin 3) (eff : ℚ)
    (cq_s : Fin 3 → ℚ) (cell seg : ℕ) (st : ResidState) (comp : Fin 3) :
    st.ebosResid cell (ebosComp comp) -
      (assemblePerfResiduals false ebosComp eff cq_s cell seg st).ebosResid
        cell (ebosComp comp) = cq_s comp * eff ∧
    st.resWell seg comp -
      (assemblePerfResiduals false ebosComp eff cq_s cell seg st).resWell
        seg comp = cq_s comp * eff := by
  fin_cases comp <;>
    constructor <;>
    simp [assemblePerfResiduals, perfCompStep, Function.update_apply,
      EmbeddingLike.apply_eq_iff_eq]

/-! ## Convergence report (`getWellConvergence`, lines 399-478)

The residuals are machine doubles that can be NaN or infinite, so they are
embedded as an explicit value type.  For each segment and each of the four
equations, the loop classifies the residual: component equations (indices
0-2) scale the absolute residual by `B_avg` and flag NaN or
larger-than-`max_residual_allowed_` values; the pressure equation (index 3,
`SPres`) uses the unscaled absolute residual and flags NaN or infinity.
Unflagged values feed a running maximum per equation.  Convergence holds
when no flag was raised and every maximum is below its tolerance. -/

/-- A double: a finite rational, NaN, or a signed infinity. -/
inductive FpVal where
  | finite (x : ℚ)
  | nan
  | inf
  | neginf
  deriving DecidableEq, Repr

/-- `std::isnan`. -/
def FpVal.isNaN : FpVal → Bool
  | .nan => true
  | _ => false

/-- `std::isinf` (true for both infinities). -/
def FpVal.isInf : FpVal → Bool
  | .inf => true
  | .neginf => true
  | _ => false

/-- `std::abs` on doubles. -/
def fpAbs : FpVal → FpVal
  | .finite x => .finite |x|
  | .nan => .nan
  | .inf => .inf
  | .neginf => .inf

/-- Multiplication of a double by the finite scalar `b` (IEEE rules:
`b * nan = nan`, `b * inf` keeps, flips, or NaNs the infinity according to
the sign of `b`). -/
def fpScale (b : ℚ) : FpVal → FpVal
  | .finite x => .finite (b * x)
  | .nan => .nan
  | .inf => if 0 < b then .inf else if b < 0 then .neginf else .nan
  | .neginf => if 0 < b then .neginf else if b < 0 then .inf else .nan

/-- The comparison `v > c` for a double `v` against a finite `c` (false
whenever `v` is NaN, IEEE). -/
def fpGtReal : FpVal → ℚ → Bool
  | .finite x, c => decide (c < x)
  | .nan, _ => false
  | .inf, _ => true
  | .neginf, _ => false

/-- The finite payload (junk 0 for non-finite values, which the loop never
stores). -/
def FpVal.toRat : FpVal → ℚ
  | .finite x => x
  | _ => 0

/-- Inputs of `getWellConvergence`: the well residual (four equations per
segment), the scaling factors `B_avg` for the three component equations,
and the model parameters. -/
structure ConvergenceInput (nseg : ℕ) where
  resWell : Fin nseg → Fin 4 → FpVal
  B_avg : Fin 3 → ℚ
  maxResidualAllowed : ℚ
  toleranceWells : ℚ
  tolerancePressure : ℚ

/-- The residual the loop classifies at `(seg, e)` (lines 424 and 444): the
scaled absolute residual for component equations, the plain absolute
residual for the pressure equation. -/
def scaledResidual {nseg : ℕ} (inp : ConvergenceInput nseg) (seg : Fin nseg)
    (e : Fin 4) : FpVal :=
  if h : (e : ℕ) < 3 then
    fpScale (inp.B_avg ⟨e, h⟩) (fpAbs (inp.resWell seg e))
  else fpAbs (inp.resWell seg e)

/-- The NaN flag condition at `(seg, e)` (lines 426 and 446). -/
def nanCond {nseg : ℕ} (inp : ConvergenceInput nseg) (seg : Fin nseg)
    (e : Fin 4) : Bool :=
  (scaledResidual inp seg e).isNaN

/-- The too-large flag condition at `(seg, e)`: exceeding
`max_residual_allowed_` for component equations (line 431), infinity for
the pressure equation (line 450). -/
def largeCond {nseg : ℕ} (inp : ConvergenceInput nseg) (seg : Fin nseg)
    (e : Fin 4) : Bool :=
  if (e : ℕ) < 3 then
    !(scaledResidual inp seg e).isNaN &&
      fpGtReal (scaledResidual inp seg e) inp.maxResidualAllowed
  else
    !(scaledResidual inp seg e).isNaN && (scaledResidual inp seg e).isInf

/-- What `(seg, e)` contributes to the zero-seeded running maximum: nothing
when flagged, otherwise the (finite) classified residual. -/
def maxContribution {nseg : ℕ} (inp : ConvergenceInput nseg) (seg : Fin nseg)
    (e : Fin 4) : ℚ :=
  if nanCond inp seg e || largeCond inp seg e then 0
  else (scaledResidual inp seg e).toRat

/-- One iteration of the classification loop (lines 422-460), on the state
`(nan_residual_found, too_large_residual_found, maximum_residual)`. -/
def convStep {nseg : ℕ} (inp : ConvergenceInput nseg) (seg : Fin nseg)
    (st : Bool × Bool × (Fin 4 → ℚ)) (e : Fin 4) :
    Bool × Bool × (Fin 4 → ℚ) :=
  if h : (e : ℕ) < 3 then
    if (fpScale (inp.B_avg ⟨e, h⟩) (fpAbs (inp.resWell seg e))).isNaN then
      (true, st.2.1, st.2.2)
    else if fpGtReal (fpScale (inp.B_avg ⟨e, h⟩) (fpAbs (inp.resWell seg e)))
        inp.maxResidualAllowed then
      (st.1, true, st.2.2)
    else if fpGtReal (fpScale (inp.B_avg ⟨e, h⟩) (fpAbs (inp.resWell seg e)))
        (st.2.2 e) then
      (st.1, st.2.1, Function.update st.2.2 e
        (fpScale (inp.B_avg ⟨e, h⟩) (fpAbs (inp.resWell seg e))).toRat)
    else st
  else
    if (fpAbs (inp.resWell seg e)).isNaN then (true, st.2.1, st.2.2)
    else if (fpAbs (inp.resWell seg e)).isInf then (st.1, true, st.2.2)
    else if fpGtReal (fpAbs (inp.resWell seg e)) (st.2.2 e) then
      (st.1, st.2.1, Function.update st.2.2 e
        (fpAbs (inp.resWell seg e)).toRat)
    else st

/-- The double loop over segments and equations (lines 421-461), starting
from no flags and zero maxima. -/
def convLoop {nseg : ℕ} (inp : ConvergenceInput nseg) :
    Bool × Bool × (Fin 4 → ℚ) :=
  (List.finRange nseg).foldl
    (fun st seg => ([0, 1, 2, 3] : List (Fin 4)).foldl (convStep inp seg) st)
    (false, false, fun _ => 0)

/-- Modelled from the spec: the `ConvergenceReport` structure is declared
outside the provided sources; per the spec, `converged` starts out true and
the flags start out false. -/
structure ConvergenceReport where
  nanResidualFound : Bool
  tooLargeResidualFound : Bool
  maximumResidual : Fin 4 → ℚ
  converged : Bool

/-- `getWellConvergence` (lines 399-478): run the classification loop, then
declare convergence only when no flag was raised and each component maximum
is below `tolerance_wells_` and the pressure maximum (`SPres = 3`) is below
`tolerance_pressure_ms_wells_` (lines 465-475). -/
def getWellConvergence {nseg : ℕ} (inp : ConvergenceInput nseg) :
    ConvergenceReport :=
  let r := convLoop inp
  let conv : Bool :=
    if !(r.1 || r.2.1) then
      (((true && decide (r.2.2 0 < inp.toleranceWells))
        && decide (r.2.2 1 < inp.toleranceWells))
        && decide (r.2.2 2 < inp.toleranceWells))
        && decide (r.2.2 3 < inp.tolerancePressure)
    else false
  ⟨r.1, r.2.1, r.2.2, conv⟩

theorem convStep_fst {nseg : ℕ} (inp : ConvergenceInput nseg)
    (seg : Fin nseg) (st : Bool × Bool × (Fin 4 → ℚ)) (e : Fin 4) :
    (convStep inp seg st e).1 = (st.1 || nanCond inp seg e) := by
  unfold convStep nanCond scaledResidual
  by_cases h : (e : ℕ) < 3
  · simp only [dif_pos h]
    split_ifs <;> simp_all
  · simp only [dif_neg h]
    split_ifs <;> simp_all

theorem convStep_snd {nseg : ℕ} (inp : ConvergenceInput nseg)
    (seg : Fin nseg) (st : Bool × Bool × (Fin 4 → ℚ)) (e : Fin 4) :
    (convStep inp seg st e).2.1 = (st.2.1 || largeCond inp seg e) := by
  unfold convStep largeCond scaledResidual
  by_cases h : (e : ℕ) < 3
  · simp only [dif_pos h, if_pos h]
    split_ifs <;> simp_all
  · simp only [dif_neg h, if_neg h]
    split_ifs <;> simp_all

theorem convStep_max {nseg : ℕ} (inp : ConvergenceInput nseg)
    (seg : Fin nseg) (st : Bool × Bool × (Fin 4 → ℚ)) (e : Fin 4)
    (hnn : 0 ≤ st.2.2 e) :
    (convStep inp seg st e).2.2
      = Function.update st.2.2 e
          (max (st.2.2 e) (maxContribution inp seg e)) := by
  unfold convStep maxContribution nanCond largeCond scaledResidual
  by_cases h : (e : ℕ) < 3
  · simp only [dif_pos h, if_pos h]
    generalize fpScale (inp.B_avg ⟨(e : ℕ), h⟩) (fpAbs (inp.resWell seg e)) = v
    cases v with
    | finite x =>
      simp only [FpVal.isNaN, FpVal.toRat, fpGtReal, Bool.false_eq_true,
        if_false, Bool.not_false, Bool.true_and, Bool.false_or,
        decide_eq_true_eq]
      split_ifs with h1 h2
      · rw [max_eq_left hnn, Function.update_eq_self]
      · rw [max_eq_right (le_of_lt h2)]
      · rw [max_eq_left (le_of_not_lt h2), Function.update_eq_self]
    | nan =>
      simp only [FpVal.isNaN, FpVal.toRat, if_true, Bool.true_or, if_pos rfl]
      rw [max_eq_left hnn, Function.update_eq_self]
    | inf =>
      simp only [FpVal.isNaN, FpVal.isInf, FpVal.toRat, fpGtReal,
        Bool.false_eq_true, if_false, Bool.not_false, Bool.true_and,
        Bool.false_or, if_true]
      rw [max_eq_left hnn, Function.update_eq_self]
    | neginf =>
      simp only [FpVal.isNaN, FpVal.isInf, FpVal.toRat, fpGtReal,
        Bool.false_eq_true, if_false, Bool.not_false, Bool.true_and,
        Bool.false_or]
      rw [max_eq_left hnn, Function.update_eq_self]
  · simp only [dif_neg h, if_neg h]
    generalize fpAbs (inp.resWell seg e) = v
    cases v with
    | finite x =>
      simp only [FpVal.isNaN, FpVal.isInf, FpVal.toRat, fpGtReal,
        Bool.false_eq_true, if_false, Bool.not_false, Bool.true_and,
        Bool.false_or, decide_eq_true_eq]
      split_ifs with h2
      · rw [max_eq_right (le_of_lt h2)]
      · rw [max_eq_left (le_of_not_lt h2), Function.update_eq_self]
    | nan =>
      simp only [FpVal.isNaN, FpVal.toRat, if_true, Bool.true_or, if_pos rfl]
      rw [max_eq_left hnn, Function.update_eq_self]
    | inf =>
      simp only [FpVal.isNaN, FpVal.isInf, FpVal.toRat, Bool.false_eq_true,
        if_false, Bool.not_false, Bool.true_and, Bool.false_or, if_true]
      rw [max_eq_left hnn, Function.update_eq_self]
    | neginf =>
      simp only [FpVal.isNaN, FpVal.isInf, FpVal.toRat, Bool.false_eq_true,
        if_false, Bool.not_false, Bool.true_and, Bool.false_or, if_true]
      rw [max_eq_left hnn, Function.update_eq_self]

theorem convStep_nonneg {nseg : ℕ} (inp : ConvergenceInput nseg)
    (seg : Fin nseg) (st : Bool × Bool × (Fin 4 → ℚ)) (e : Fin 4)
    (hnn : ∀ e2, 0 ≤ st.2.2 e2) :
    ∀ e2, 0 ≤ (convStep inp seg st e).2.2 e2 := by
  intro e2
  rw [convStep_max inp seg st e (hnn e), Function.update_apply]
  split_ifs with he
  · exact le_trans (hnn e) (le_max_left _ _)
  · exact hnn e2

/-- Effect of the inner equation loop (`for eq_idx`, line 422) for one
segment on the classification state. -/
theorem innerFold_spec {nseg : ℕ} (inp : ConvergenceInput nseg)
    (seg : Fin nseg) (st : Bool × Bool × (Fin 4 → ℚ))
    (hnn : ∀ e2, 0 ≤ st.2.2 e2) :
    ([0, 1, 2, 3] : List (Fin 4)).foldl (convStep inp seg) st =
      (st.1 || (((nanCond inp seg 0 || nanCond inp seg 1) ||
          nanCond inp seg 2) || nanCond inp seg 3),
       st.2.1 || (((largeCond inp seg 0 || largeCond inp seg 1) ||
          largeCond inp seg 2) || largeCond inp seg 3),
       fun e => max (st.2.2 e) (maxContribution inp seg e)) := by
  have h0 := convStep_nonneg inp seg st 0 hnn
  have h1 := convStep_nonneg inp seg _ 1 h0
  have h2 := convStep_nonneg inp seg _ 2 h1
  simp only [List.foldl_cons, List.foldl_nil]
  refine Prod.ext ?_ (Prod.ext ?_ ?_)
  · simp [convStep_fst, Bool.or_assoc]
  · simp [convStep_snd, Bool.or_assoc]
  · show (convStep inp seg _ 3).2.2 = _
    rw [convStep_max inp seg _ 3 (h2 3), convStep_max inp seg _ 2 (h1 2),
      convStep_max inp seg _ 1 (h0 1), convStep_max inp seg st 0 (hnn 0)]
    funext e
    fin_cases e <;>
      simp +decide [Function.update_apply]

/-- The per-segment NaN flag: some equation of the segment classifies as
NaN. -/
def segNanCond {nseg : ℕ} (inp : ConvergenceInput nseg) (seg : Fin nseg) :
    Bool :=
  ((nanCond inp seg 0 || nanCond inp seg 1) || nanCond inp seg 2) ||
    nanCond inp seg 3

/-- The per-segment too-large flag. -/
def segLargeCond {nseg : ℕ} (inp : ConvergenceInput nseg) (seg : Fin nseg) :
    Bool :=
  ((largeCond inp seg 0 || largeCond inp seg 1) || largeCond inp seg 2) ||
    largeCond inp seg 3

/-- The maximum over all segments of the classified residual of equation
`e` (zero-seeded, flagged entries contributing nothing), as accumulated by
the loop at lines 437-438 and 455-456. -/
def maxScaled {nseg : ℕ} (inp : ConvergenceInput nseg) (e : Fin 4) : ℚ :=
  ((List.finRange nseg).map fun seg => maxContribution inp seg e).foldl max 0

theorem outerFold_spec {nseg : ℕ} (inp : ConvergenceInput nseg)
    (l : List (Fin nseg)) (st : Bool × Bool × (Fin 4 → ℚ))
    (hnn : ∀ e2, 0 ≤ st.2.2 e2) :
    l.foldl (fun st2 seg =>
        ([0, 1, 2, 3] : List (Fin 4)).foldl (convStep inp seg) st2) st =
      (st.1 || l.any (segNanCond inp),
       st.2.1 || l.any (segLargeCond inp),
       fun e => (l.map fun seg => maxContribution inp seg e).foldl max
         (st.2.2 e)) := by
  induction l generalizing st with
  | nil => simp
  | cons seg rest ih =>
    rw [List.foldl_cons, innerFold_spec inp seg st hnn]
    rw [ih _ (fun e2 => le_trans (hnn e2) (le_max_left _ _))]
    refine Prod.ext ?_ (Prod.ext ?_ ?_)
    · simp [segNanCond, Bool.or_assoc]
    · simp [segLargeCond, Bool.or_assoc]
    · funext e
      simp [List.foldl_cons]

theorem convLoop_spec {nseg : ℕ} (inp : ConvergenceInput nseg) :
    convLoop inp =
      ((List.finRange nseg).any (segNanCond inp),
       (List.finRange nseg).any (segLargeCond inp),
       fun e => maxScaled inp e) := by
  unfold convLoop maxScaled
  rw [outerFold_spec inp (List.finRange nseg) _ (fun _ => le_refl 0)]
  simp

theorem segNan_false_iff {nseg : ℕ} (inp : ConvergenceInput nseg) :
    ((List.finRange nseg).any (segNanCond inp) = false) ↔
      ∀ seg : Fin nseg, ∀ e : Fin 4, nanCond inp seg e = false := by
  rw [Bool.eq_false_iff]
  rw [ne_eq, List.any_eq_true]
  constructor
  · intro hno seg e
    by_contra hne
    have he : nanCond inp seg e = true := by
      cases hcase : nanCond inp seg e
      · exact absurd hcase hne
      · rfl
    have hsegt : segNanCond inp seg = true := by
      fin_cases e <;> simp_all [segNanCond]
    exact hno ⟨seg, List.mem_finRange seg, hsegt⟩
  · rintro hall ⟨seg, _, hseg⟩
    simp [segNanCond, hall seg 0, hall seg 1, hall seg 2, hall seg 3] at hseg

theorem segLarge_false_iff {nseg : ℕ} (inp : ConvergenceInput nseg) :
    ((List.finRange nseg).any (segLargeCond inp) = false) ↔
      ∀ seg : Fin nseg, ∀ e : Fin 4, largeCond inp seg e = false := by
  rw [Bool.eq_false_iff]
  rw [ne_eq, List.any_eq_true]
  constructor
  · intro hno seg e
    by_contra hne
    have he : largeCond inp seg e = true := by
      cases hcase : largeCond inp seg e
      · exact absurd hcase hne
      · rfl
    have hsegt : segLargeCond inp seg = true := by
      fin_cases e <;> simp_all [segLargeCond]
    exact hno ⟨seg, List.mem_finRange seg, hsegt⟩
  · rintro hall ⟨seg, _, hseg⟩
    simp [segLargeCond, hall seg 0, hall seg 1, hall seg 2, hall seg 3] at hseg

/-- C6: `getWellConvergence` reports converged exactly when no residual was
flagged NaN or too-large and, for every component equation, the maximum
over segments of the scaled residual is below `tolerance_wells_` and the
maximum absolute pressure-equation residual is below
`tolerance_pressure_ms_wells_`; moreover the pressure equation classifies
the unscaled absolute residual and flags infinity (not NaN) as too-large. -/
theorem getWellConvergence_converged_iff {nseg : ℕ}
    (inp : ConvergenceInput nseg) :
    ((getWellConvergence inp).converged = true ↔
      ((∀ seg : Fin nseg, ∀ e : Fin 4, nanCond inp seg e = false) ∧
       (∀ seg : Fin nseg, ∀ e : Fin 4, largeCond inp seg e = false) ∧
       (∀ c : Fin 3, maxScaled inp c.castSucc < inp.toleranceWells) ∧
       maxScaled inp 3 < inp.tolerancePressure)) ∧
    (∀ seg : Fin nseg, scaledResidual inp seg 3 = fpAbs (inp.resWell seg 3)) ∧
    (∀ seg : Fin nseg, largeCond inp seg 3
        = (!(fpAbs (inp.resWell seg 3)).isNaN &&
           (fpAbs (inp.resWell seg 3)).isInf)) := by
  have hconv : (getWellConvergence inp).converged =
      (if !((List.finRange nseg).any (segNanCond inp) ||
            (List.finRange nseg).any (segLargeCond inp)) then
        (((true && decide (maxScaled inp 0 < inp.toleranceWells))
          && decide (maxScaled inp 1 < inp.toleranceWells))
          && decide (maxScaled inp 2 < inp.toleranceWells))
          && decide (maxScaled inp 3 < inp.tolerancePressure)
      else false) := by
    unfold getWellConvergence
    rw [convLoop_spec inp]
  refine ⟨?_, fun seg => rfl, fun seg => rfl⟩
  rw [hconv]
  constructor
  · intro h
    cases hA : (List.finRange nseg).any (segNanCond inp) with
    | true => rw [hA] at h; simp at h
    | false =>
      cases hB : (List.finRange nseg).any (segLargeCond inp) with
      | true => rw [hA, hB] at h; simp at h
      | false =>
        rw [hA, hB] at h
        simp only [Bool.or_false, Bool.not_false, if_true, Bool.true_and,
          Bool.and_eq_true, decide_eq_true_eq] at h
        refine ⟨(segNan_false_iff inp).mp hA, (segLarge_false_iff inp).mp hB,
          ?_, h.2⟩
        intro c
        fin_cases c
        · exact h.1.1.1
        · exact h.1.1.2
        · exact h.1.2
  · rintro ⟨hnan, hlarge, hcomp, hpres⟩
    rw [(segNan_false_iff inp).mpr hnan, (segLarge_false_iff inp).mpr hlarge]
    have e0 : maxScaled inp 0 < inp.toleranceWells := hcomp 0
    have e1 : maxScaled inp 1 < inp.toleranceWells := hcomp 1
    have e2 : maxScaled inp 2 < inp.toleranceWells := hcomp 2
    simp [e0, e1, e2, hpres]
